import Mathlib

/-!
Verification of the BookHub bookmark-sync extension.

Shallow embedding of the code under verification:
- bookmark-serializer.js: serializeToJson, serializeNode, deserializeFromJson,
  bookmarksEqual (which compares JSON.stringify renderings of the bookmarks field);
- github-api.js: the response classification in GitHubAPI._fetch, GitHubAPI.getFile,
  GitHubError, encodeBase64, decodeBase64 (together with models of the platform
  primitives TextEncoder, TextDecoder, btoa and atob that they call);
- background.js: triggerAutoSync, the alarm listener gate and the
  windows.onFocusChanged listener gate.

Functions of sync-engine.js are not part of the sources; where a claim depends on
them they are modelled from the specification and marked as such in their doc
comments.
-/

/-! ## Serialized bookmark nodes (bookmark-serializer.js data model) -/

/-- A serialized bookmark-tree node as produced by serializeNode: an object with
title, dateAdded, type and then either url (type "bookmark") or children
(type "folder"), in that key order. -/
inductive SNode where
  | bookmark (title : String) (dateAdded : Nat) (url : String)
  | folder (title : String) (dateAdded : Nat) (children : List SNode)

/-- The envelope produced by serializeToJson: version, exportedAt, deviceId and
the serialized root children.  The bookmarks field is optional so that the
JavaScript truthiness test on data.bookmarks can be expressed. -/
structure SData where
  version : Int
  exportedAt : String
  deviceId : String
  bookmarks : Option (List SNode)

/-- A Chrome BookmarkTreeNode as far as the serializer reads it: title, optional
url, dateAdded and children. -/
structure BNode where
  title : String
  url : Option String
  dateAdded : Nat
  children : List BNode

/-- JavaScript truthiness of an optional string: null and the empty string are
falsy, any other string is truthy. -/
def jsTruthyStr : Option String → Bool
  | none => false
  | some s => s ≠ ""

/-- serializeNode from bookmark-serializer.js: a node with a truthy url becomes a
bookmark leaf, any other node becomes a folder with recursively serialized
children. -/
def serializeNode : BNode → SNode
  | ⟨t, url, da, cs⟩ =>
    if jsTruthyStr url then .bookmark t da (url.getD "")
    else .folder t da (cs.attach.map fun c => serializeNode c.1)
termination_by n => sizeOf n
decreasing_by
  have := List.sizeOf_lt_of_mem c.2
  simp
  omega

/-- The root children selected by serializeToJson: bookmarkTree[0]?.children or
the empty list. -/
def rootChildren : List BNode → List BNode
  | [] => []
  | r :: _ => r.children

/-- serializeToJson from bookmark-serializer.js.  The timestamp produced by
new Date().toISOString() is passed in as the parameter now. -/
def serializeToJson (now : String) (bookmarkTree : List BNode) (deviceId : String) : SData :=
  { version := 1
    exportedAt := now
    deviceId := deviceId
    bookmarks := some ((rootChildren bookmarkTree).map serializeNode) }

/-- deserializeFromJson from bookmark-serializer.js: throws on falsy data, falsy
data.bookmarks, or version different from 1; otherwise returns data.bookmarks. -/
def deserializeFromJson : Option SData → Except String (List SNode)
  | none => .error "Ungültiges Bookmark-Datenformat."
  | some d =>
    match d.bookmarks with
    | none => .error "Ungültiges Bookmark-Datenformat."
    | some bs => if d.version ≠ 1 then .error "Ungültiges Bookmark-Datenformat." else .ok bs

/-! ## JSON.stringify, modelled character by character

bookmarksEqual compares JSON.stringify(a.bookmarks) with JSON.stringify(b.bookmarks),
so the exact output of JSON.stringify on serialized nodes is modelled: string
escaping, decimal numerals, and the object/array syntax with insertion-ordered
keys. -/

/-- Lower-case hexadecimal digit, as used by JSON.stringify unicode escapes. -/
def hexDigit (n : Nat) : Char :=
  if n < 10 then Char.ofNat (48 + n) else Char.ofNat (87 + n)

/-- JSON.stringify escaping of one character: quote and backslash are
backslash-escaped, the named control escapes are used for backspace, tab,
newline, form feed and carriage return, any other control character becomes a
unicode escape, and everything else is emitted verbatim. -/
def escChar (c : Char) : List Char :=
  if c = '"' then ['\\', '"']
  else if c = '\\' then ['\\', '\\']
  else if c = '\n' then ['\\', 'n']
  else if c = '\r' then ['\\', 'r']
  else if c = '\t' then ['\\', 't']
  else if c = Char.ofNat 8 then ['\\', 'b']
  else if c = Char.ofNat 12 then ['\\', 'f']
  else if c.toNat < 32 then
    ['\\', 'u', '0', '0', hexDigit (c.toNat / 16), hexDigit (c.toNat % 16)]
  else [c]

/-- Escaped rendering of a character sequence. -/
def escBody : List Char → List Char
  | [] => []
  | c :: cs => escChar c ++ escBody cs

/-- JSON string literal: quote, escaped body, quote. -/
def qstr (s : String) : List Char := '"' :: (escBody s.data ++ ['"'])

/-- Decimal digit character. -/
def digitCh (d : Nat) : Char := Char.ofNat (48 + d)

/-- Decimal rendering of a natural number, most significant digit first, as
JSON.stringify renders the integral dateAdded values. -/
def natChars (n : Nat) : List Char :=
  if n < 10 then [digitCh n]
  else natChars (n / 10) ++ [digitCh (n % 10)]
termination_by n
decreasing_by omega

/-- Literal opening of a serialized node object up to the title value. -/
def litTitle : List Char := ['\x7b', '"', 't', 'i', 't', 'l', 'e', '"', ':']

/-- Literal between the title value and the dateAdded value. -/
def litDate : List Char := [',', '"', 'd', 'a', 't', 'e', 'A', 'd', 'd', 'e', 'd', '"', ':']

/-- Literal between the dateAdded value and the url value of a bookmark leaf. -/
def litTypeBm : List Char :=
  [',', '"', 't', 'y', 'p', 'e', '"', ':', '"', 'b', 'o', 'o', 'k', 'm', 'a', 'r', 'k', '"',
   ',', '"', 'u', 'r', 'l', '"', ':']

/-- Literal between the dateAdded value and the children array of a folder. -/
def litTypeFo : List Char :=
  [',', '"', 't', 'y', 'p', 'e', '"', ':', '"', 'f', 'o', 'l', 'd', 'e', 'r', '"',
   ',', '"', 'c', 'h', 'i', 'l', 'd', 'r', 'e', 'n', '"', ':', '[']

/-- Literal closing a bookmark object. -/
def litClose : List Char := ['\x7d']

/-- Literal closing a folder: end of the children array then end of the object. -/
def litCloseFo : List Char := [']', '\x7d']

mutual
/-- JSON.stringify of one serialized node. -/
def jsonOfNode : SNode → List Char
  | .bookmark t da u =>
    litTitle ++ qstr t ++ litDate ++ natChars da ++ litTypeBm ++ qstr u ++ litClose
  | .folder t da cs =>
    litTitle ++ qstr t ++ litDate ++ natChars da ++ litTypeFo ++ jsonBody cs ++ litCloseFo
/-- JSON.stringify of the elements of an array, comma separated. -/
def jsonBody : List SNode → List Char
  | [] => []
  | x :: t => jsonOfNode x ++ jsonTail t
/-- Comma-prefixed continuation of an array rendering. -/
def jsonTail : List SNode → List Char
  | [] => []
  | x :: t => ',' :: (jsonOfNode x ++ jsonTail t)
end

/-- JSON.stringify applied to the bookmarks field: undefined stays undefined
(JSON.stringify of undefined is undefined), a list becomes its array
rendering. -/
def stringifyBM : Option (List SNode) → Option (List Char)
  | none => none
  | some l => some ('[' :: (jsonBody l ++ [']']))

/-- bookmarksEqual from bookmark-serializer.js: false if either argument is
falsy, otherwise comparison of the JSON.stringify renderings of the two
bookmarks fields. -/
def bookmarksEqual : Option SData → Option SData → Bool
  | some a, some b => stringifyBM a.bookmarks == stringifyBM b.bookmarks
  | _, _ => false

/-- Value of a lower-case hexadecimal digit character (inverse of hexDigit,
used to invert the escaping). -/
def hexVal (c : Char) : Nat := if c.toNat ≥ 97 then c.toNat - 87 else c.toNat - 48

/-- Inverse of one escaping step: given the first character of an escaped
rendering and the following characters, the original character and how many
further characters the escape occupied. -/
def unescStep (c : Char) (rest : List Char) : Char × Nat :=
  if c ≠ '\\' then (c, 0)
  else
    let d := rest.getD 0 'X'
    if d = '"' then ('"', 1)
    else if d = '\\' then ('\\', 1)
    else if d = 'n' then ('\n', 1)
    else if d = 'r' then ('\r', 1)
    else if d = 't' then ('\t', 1)
    else if d = 'b' then (Char.ofNat 8, 1)
    else if d = 'f' then (Char.ofNat 12, 1)
    else (Char.ofNat (hexVal (rest.getD 3 'X') * 16 + hexVal (rest.getD 4 'X')), 5)

/-- Decimal digit character test. -/
def isDigitCh (c : Char) : Bool := 48 ≤ c.toNat && c.toNat ≤ 57

/-- Value of a digit string (inverse of natChars). -/
def digitsVal (l : List Char) : Nat := l.foldl (fun a c => a * 10 + (c.toNat - 48)) 0

/-! ## Base64 and UTF-8 (encodeBase64 / decodeBase64 from github-api.js)

encodeBase64 runs TextEncoder().encode, builds a byte string and calls btoa;
decodeBase64 strips newlines, calls atob and decodes the bytes with
TextDecoder().decode.  The platform primitives are modelled on byte lists. -/

/-- UTF-8 continuation byte test. -/
def isCont (b : Nat) : Bool := 128 ≤ b && b < 192

/-- The unicode replacement character emitted by TextDecoder on bad input. -/
def replCh : Char := Char.ofNat 65533

/-- One step of the TextDecoder UTF-8 decoder: given the lead byte and the
remaining bytes, the decoded character and how many continuation bytes it
consumed.  Missing lookahead bytes are represented by the out-of-range value
256, which fails the continuation test exactly like a truncated sequence. -/
def utf8Step (b : Nat) (rest : List Nat) : Char × Nat :=
  let b1 := rest.getD 0 256
  let b2 := rest.getD 1 256
  let b3 := rest.getD 2 256
  if b < 128 then (Char.ofNat b, 0)
  else if b < 192 then (replCh, 0)
  else if b < 224 then
    if isCont b1 then (Char.ofNat ((b - 192) * 64 + (b1 - 128)), 1) else (replCh, 0)
  else if b < 240 then
    if isCont b1 && isCont b2 then
      (Char.ofNat ((b - 224) * 4096 + (b1 - 128) * 64 + (b2 - 128)), 2)
    else (replCh, 0)
  else if b < 248 then
    if isCont b1 && isCont b2 && isCont b3 then
      (Char.ofNat ((b - 240) * 262144 + (b1 - 128) * 4096 + (b2 - 128) * 64 + (b3 - 128)), 3)
    else (replCh, 0)
  else (replCh, 0)

/-- TextDecoder().decode modelled on byte lists. -/
def utf8Decode : List Nat → List Char
  | [] => []
  | b :: rest => (utf8Step b rest).1 :: utf8Decode (rest.drop (utf8Step b rest).2)
termination_by l => l.length
decreasing_by simp [List.length_drop]; omega

/-- UTF-8 encoding of one character, per the standard 1-to-4-byte scheme used by
TextEncoder. -/
def utf8Char (c : Char) : List Nat :=
  let n := c.toNat
  if n < 128 then [n]
  else if n < 2048 then [192 + n / 64, 128 + n % 64]
  else if n < 65536 then [224 + n / 4096, 128 + n / 64 % 64, 128 + n % 64]
  else [240 + n / 262144, 128 + n / 4096 % 64, 128 + n / 64 % 64, 128 + n % 64]

/-- TextEncoder().encode modelled on character lists. -/
def utf8Bytes : List Char → List Nat
  | [] => []
  | c :: cs => utf8Char c ++ utf8Bytes cs

/-- Character of one 6-bit value in the standard base64 alphabet. -/
def b64Char (i : Nat) : Char :=
  if i < 26 then Char.ofNat (65 + i)
  else if i < 52 then Char.ofNat (97 + i - 26)
  else if i < 62 then Char.ofNat (48 + i - 52)
  else if i = 62 then '+'
  else '/'

/-- Value of a base64 alphabet character. -/
def b64Val (c : Char) : Nat :=
  if c = '+' then 62
  else if c = '/' then 63
  else if c.toNat ≥ 97 then c.toNat - 97 + 26
  else if c.toNat ≥ 65 then c.toNat - 65
  else c.toNat - 48 + 52

/-- btoa modelled on byte lists: three bytes become four alphabet characters,
a trailing group of one or two bytes is padded with equals signs. -/
def btoaB : List Nat → List Char
  | [] => []
  | [a] => [b64Char (a / 4), b64Char (a % 4 * 16), '=', '=']
  | [a, b] => [b64Char (a / 4), b64Char (a % 4 * 16 + b / 16), b64Char (b % 16 * 4), '=']
  | a :: b :: c :: rest =>
    b64Char (a / 4) :: b64Char (a % 4 * 16 + b / 16) :: b64Char (b % 16 * 4 + c / 64) ::
      b64Char (c % 64) :: btoaB rest

/-- atob modelled on character lists, the inverse grouping of btoaB. -/
def atobB : List Char → List Nat
  | c1 :: c2 :: c3 :: c4 :: rest =>
    if c3 = '=' then [b64Val c1 * 4 + b64Val c2 / 16]
    else if c4 = '=' then
      [b64Val c1 * 4 + b64Val c2 / 16, b64Val c2 % 16 * 16 + b64Val c3 / 4]
    else
      (b64Val c1 * 4 + b64Val c2 / 16) :: (b64Val c2 % 16 * 16 + b64Val c3 / 4) ::
        (b64Val c3 % 4 * 64 + b64Val c4) :: atobB rest
  | _ => []

/-- The newline stripping performed by decodeBase64: base64.replace of every
newline by the empty string. -/
def stripNewlines (l : List Char) : List Char := l.filter (· ≠ '\n')

/-- encodeBase64 from github-api.js: UTF-8 encode, then btoa of the byte
string. -/
def encodeBase64 (s : String) : String := ⟨btoaB (utf8Bytes s.data)⟩

/-- decodeBase64 from github-api.js: strip newlines, atob, then UTF-8 decode of
the resulting bytes. -/
def decodeBase64 (s : String) : String := ⟨utf8Decode (atobB (stripNewlines s.data))⟩

/-! ## GitHub API error classification (github-api.js) -/

/-- Modelled from the spec: getMessage of i18n.js (not among the sources) looks
up the localized text of a message key; distinct keys name distinct messages,
so the lookup is modelled by the key itself. -/
def getMessage (key : String) : String := key

/-- GitHubError from github-api.js: an error value carrying a message and the
HTTP status code. -/
structure GitHubError where
  message : String
  statusCode : Nat
deriving DecidableEq

/-- An HTTP response as far as github-api.js inspects it: the status code, the
optional message field of the parsed JSON body (none when the body is not
JSON), and the content and sha fields used by getFile. -/
structure HttpResponse where
  status : Nat
  jsonMessage : Option String
  content : String
  sha : String

/-- Whether pat occurs at the start of s. -/
def leadsWith : List Char → List Char → Bool
  | [], _ => true
  | _ :: _, [] => false
  | p :: ps, c :: cs => p == c && leadsWith ps cs

/-- Whether pat occurs anywhere in s, as String.prototype.includes. -/
def containsSub (pat : List Char) : List Char → Bool
  | [] => leadsWith pat []
  | c :: rest => leadsWith pat (c :: rest) || containsSub pat rest

/-- The test data.message and data.message.includes of a rate limit mention:
false when the body had no message or the message is empty (falsy), otherwise
substring search. -/
def hasRateLimitMsg : Option String → Bool
  | none => false
  | some m => m ≠ "" && containsSub "rate limit".data m.data

/-- The error classification of GitHubAPI._fetch: 401 is an invalid-token
error, 403 with a rate-limit message is a rate-limit error, any other 403 is
access denied, 409 is a conflict; every other response is passed through. -/
def githubFetch (r : HttpResponse) : Except GitHubError HttpResponse :=
  if r.status = 401 then .error ⟨getMessage "api_invalidToken", 401⟩
  else if r.status = 403 then
    if hasRateLimitMsg r.jsonMessage then .error ⟨getMessage "api_rateLimitExceeded", 403⟩
    else .error ⟨getMessage "api_accessDenied", 403⟩
  else if r.status = 409 then .error ⟨getMessage "api_conflict", 409⟩
  else .ok r

/-- Response.ok of the fetch API: status in the range 200 to 299. -/
def isOk (status : Nat) : Bool := 200 ≤ status && status < 300

/-- The content and sha pair returned by a successful getFile. -/
structure GitFile where
  content : String
  sha : String
deriving DecidableEq

/-- GitHubAPI.getFile: run the classified fetch; 404 yields null, any other
non-ok status raises a reading error, an ok response yields the base64-decoded
content together with the sha. -/
def getFile (r : HttpResponse) : Except GitHubError (Option GitFile) :=
  match githubFetch r with
  | .error e => .error e
  | .ok resp =>
    if resp.status = 404 then .ok none
    else if !isOk resp.status then .error ⟨getMessage "api_errorReading", resp.status⟩
    else .ok (some ⟨decodeBase64 resp.content, resp.sha⟩)

/-! ## Background service worker triggers (background.js) and the
sync-engine entry discipline -/

/-- The engine settings read by the background listeners.  The debounce delay is
optional: a missing stored value falls back to the 5000 ms default via the
nullish-coalescing operator. -/
structure Settings where
  githubToken : String
  repoOwner : String
  repoName : String
  autoSync : Bool
  syncOnFocus : Bool
  debounceDelay : Option Nat

/-- Modelled from the spec: isConfigured of sync-engine.js (not among the
sources) — a profile is configured when token, repository owner and repository
name are all set. -/
def isConfigured (s : Settings) : Bool :=
  s.githubToken ≠ "" && s.repoOwner ≠ "" && s.repoName ≠ ""

/-- triggerAutoSync from background.js, as the delay passed to debouncedSync:
none when no debounced sync is scheduled.  It returns immediately when a sync
is in progress or auto-sync is suppressed; otherwise, with auto-sync enabled
and the profile configured, it schedules the configured debounce delay,
defaulting to 5000 ms. -/
def triggerAutoSync (inProgress suppressed : Bool) (s : Settings) : Option Nat :=
  if inProgress then none
  else if suppressed then none
  else if s.autoSync && isConfigured s then some (s.debounceDelay.getD 5000)
  else none

/-- chrome.windows.WINDOW_ID_NONE. -/
def windowIdNone : Int := -1

/-- The 60-second cooldown of the focus trigger. -/
def focusCooldownMs : Int := 60000

/-- The windows.onFocusChanged listener from background.js, as the decision
whether sync() is invoked: early return on a non-window focus event, on
disabled sync-on-focus, unconfigured profile or disabled auto-sync, within the
cooldown of the last recorded sync time, or while a sync is in flight. -/
def focusSyncFires (windowId : Int) (s : Settings) (lastSyncTime : Option Int)
    (now : Int) (inProgress : Bool) : Bool :=
  if windowId = windowIdNone || windowId < 0 then false
  else if !s.syncOnFocus || !isConfigured s || !s.autoSync then false
  else if (match lastSyncTime with
           | some t => decide (now - t < focusCooldownMs)
           | none => false) then false
  else if inProgress then false
  else true

/-- The alarm listener from background.js, as the decision whether the periodic
trigger invokes sync(): it runs exactly when the profile is configured and
auto-sync is enabled, with no further condition. -/
def alarmTriggersSync (s : Settings) : Bool := isConfigured s && s.autoSync

/-- Outcome of the three-way merge inside a sync run. -/
inductive MergeOutcome where
  | clean
  | conflict

/-- The per-profile sync state consulted by the entry points: the in-flight
flag and the sticky conflict flag. -/
structure SyncState where
  inFlight : Bool
  conflictFlag : Bool
deriving DecidableEq

/-- Modelled from the spec: sync() of sync-engine.js (not among the sources),
per sections 4.3 and 7 of the specification — the entry point checks only the
in-flight flag; otherwise it fetches, runs the merge, clears the conflict flag
on a clean merge and sets it on a conflict.  The returned flag records whether
the run executed (performed remote reads and the merge) rather than returning
immediately. -/
def syncRun (st : SyncState) (outcome : MergeOutcome) : SyncState × Bool :=
  if st.inFlight then (st, false)
  else
    match outcome with
    | .clean => ({ inFlight := false, conflictFlag := false }, true)
    | .conflict => ({ inFlight := false, conflictFlag := true }, true)

/-- Coordinator state for the single-flight discipline: the in-flight flag and
a count of side effects performed. -/
structure CoordState where
  inFlight : Bool
  writes : Nat
deriving DecidableEq

/-- Modelled from the spec: the single-flight guard of every sync-engine entry
point (sync-engine.js is not among the sources), per section 5 of the
specification — the entry point checks the in-flight flag first; observing it
set, it returns immediately without side effects; otherwise it sets the flag
and proceeds. -/
def beginOp (st : CoordState) : CoordState × Bool :=
  if st.inFlight then (st, false) else ({ st with inFlight := true }, true)

/-- A side effect performed by the running operation. -/
def performWrite (st : CoordState) : CoordState := { st with writes := st.writes + 1 }

/-- Completion of the running operation: the in-flight flag is cleared. -/
def endOp (st : CoordState) : CoordState := { st with inFlight := false }

/-! ## Helper lemmas and claim theorems -/

/-- Claim C2: for every local bookmark mutation event, if the auto-sync
suppression flag is raised or a sync is in progress when the event handler
runs, then no debounced sync is scheduled by that event. -/
theorem claim_C2 (inProgress suppressed : Bool) (s : Settings)
    (h : inProgress = true ∨ suppressed = true) :
    triggerAutoSync inProgress suppressed s = none := by
  rcases h with h | h
  · subst h; rfl
  · subst h; cases inProgress <;> rfl

theorem claim_C2_witness :
    triggerAutoSync false true ⟨"t", "o", "r", true, false, none⟩ = none :=
  claim_C2 false true ⟨"t", "o", "r", true, false, none⟩ (Or.inr rfl)

/-- Claim C8: when a local bookmark mutation event triggers auto-sync
(auto-sync enabled, profile configured, no suppression, no sync in flight),
the delayed sync is scheduled with the configured debounce delay, and with
exactly 5000 milliseconds when no delay is configured. -/
theorem claim_C8 (s : Settings) (hauto : s.autoSync = true)
    (hconf : isConfigured s = true) :
    triggerAutoSync false false s = some (s.debounceDelay.getD 5000) ∧
    (s.debounceDelay = none → triggerAutoSync false false s = some 5000) := by
  constructor
  · simp [triggerAutoSync, hauto, hconf]
  · intro hnone
    simp [triggerAutoSync, hauto, hconf, hnone]

theorem claim_C8_witness :
    triggerAutoSync false false ⟨"t", "o", "r", true, false, none⟩ = some 5000 :=
  (claim_C8 ⟨"t", "o", "r", true, false, none⟩ rfl (by decide)).2 rfl

/-- Claim C4: per profile, every mutating entry point checks the in-flight flag
first; the first call acquires the flag, and a second call that observes the
flag set returns immediately with the state unchanged (no side effects), so at
most one mutating operation executes at any time. -/
theorem claim_C4 (st : CoordState) (h : st.inFlight = false) :
    (beginOp st).2 = true ∧ beginOp (beginOp st).1 = ((beginOp st).1, false) := by
  simp [beginOp, h]

theorem claim_C4_witness :
    (beginOp ⟨false, 0⟩).2 = true ∧
      beginOp (beginOp ⟨false, 0⟩).1 = ((beginOp ⟨false, 0⟩).1, false) :=
  claim_C4 ⟨false, 0⟩ rfl

/-- Claim C3 fails on the code: the alarm-triggered auto-sync is gated only on
the profile being configured and auto-sync being enabled, never on the sticky
conflict flag, and the sync entry (modelled from the specification, which
checks only the in-flight flag) executes despite the set conflict flag —
exhibited at a concrete configured state with the conflict flag set. -/
theorem claim_C3_counterexample :
    ¬ (∀ (st : SyncState) (s : Settings) (mo : MergeOutcome),
        st.conflictFlag = true → alarmTriggersSync s = true → (syncRun st mo).2 = false) := by
  intro h
  have hc := h ⟨false, true⟩ ⟨"t", "o", "r", true, false, none⟩ .clean rfl (by decide)
  simp [syncRun] at hc

/-- Claim C3 amended: once the sticky conflict flag is set, auto-sync triggers
(debounce, alarm, focus) are not gated on the flag — the alarm gate depends
only on configuration and the auto-sync setting, and the sync entry runs the
merge again: a still-conflicting merge leaves the flag set, while a clean
re-merge clears it without user action.  Manual push, pull and sync call the
same entry points. -/
theorem claim_C3_amended (s : Settings) (st : SyncState)
    (hconf : st.conflictFlag = true) (hflight : st.inFlight = false) :
    alarmTriggersSync s = (isConfigured s && s.autoSync) ∧
    (syncRun st .conflict).2 = true ∧ (syncRun st .conflict).1.conflictFlag = true ∧
    (syncRun st .clean).2 = true ∧ (syncRun st .clean).1.conflictFlag = false := by
  refine ⟨rfl, ?_, ?_, ?_, ?_⟩ <;> simp [syncRun, hflight]

theorem claim_C3_witness :
    (syncRun ⟨false, true⟩ .conflict).2 = true ∧
      (syncRun ⟨false, true⟩ .conflict).1.conflictFlag = true :=
  ⟨(claim_C3_amended ⟨"t", "o", "r", true, false, none⟩ ⟨false, true⟩ rfl rfl).2.1,
   (claim_C3_amended ⟨"t", "o", "r", true, false, none⟩ ⟨false, true⟩ rfl rfl).2.2.1⟩

/-- Claim C5: remote-store errors are distinguishable by kind — 401 raises the
invalid-token error with status 401, a 403 whose message mentions the rate
limit raises the rate-limit error, any other 403 raises the access-denied
error, 409 raises the conflict error, and the four errors are pairwise
distinct. -/
theorem claim_C5 (r : HttpResponse) :
    (r.status = 401 → githubFetch r = .error ⟨getMessage "api_invalidToken", 401⟩) ∧
    (r.status = 403 → hasRateLimitMsg r.jsonMessage = true →
      githubFetch r = .error ⟨getMessage "api_rateLimitExceeded", 403⟩) ∧
    (r.status = 403 → hasRateLimitMsg r.jsonMessage = false →
      githubFetch r = .error ⟨getMessage "api_accessDenied", 403⟩) ∧
    (r.status = 409 → githubFetch r = .error ⟨getMessage "api_conflict", 409⟩) ∧
    List.Pairwise (· ≠ ·)
      [(⟨getMessage "api_invalidToken", 401⟩ : GitHubError),
       ⟨getMessage "api_rateLimitExceeded", 403⟩,
       ⟨getMessage "api_accessDenied", 403⟩,
       ⟨getMessage "api_conflict", 409⟩] := by
  refine ⟨?_, ?_, ?_, ?_, ?_⟩
  · intro h; simp [githubFetch, h]
  · intro h hrl; simp [githubFetch, h, hrl]
  · intro h hrl; simp [githubFetch, h, hrl]
  · intro h; simp [githubFetch, h]
  · decide

theorem claim_C5_witness :
    githubFetch ⟨401, none, "", ""⟩ = .error ⟨getMessage "api_invalidToken", 401⟩ :=
  (claim_C5 ⟨401, none, "", ""⟩).1 rfl

/-- Claim C6: getFile returns the absent marker exactly when the store answers
404, returns the decoded content and sha on a successful read, and raises an
error on every other non-ok response — never content for a missing file. -/
theorem claim_C6 (r : HttpResponse) :
    (getFile r = .ok none ↔ r.status = 404) ∧
    (isOk r.status = true → getFile r = .ok (some ⟨decodeBase64 r.content, r.sha⟩)) ∧
    (r.status ≠ 404 → isOk r.status = false → ∃ e, getFile r = .error e) := by
  by_cases h401 : r.status = 401
  · refine ⟨?_, ?_, ?_⟩
    · simp [getFile, githubFetch, h401]
    · intro hok; rw [h401] at hok; simp [isOk] at hok
    · intro _ _
      exact ⟨⟨getMessage "api_invalidToken", 401⟩, by simp [getFile, githubFetch, h401]⟩
  · by_cases h403 : r.status = 403
    · by_cases hrl : hasRateLimitMsg r.jsonMessage = true
      · refine ⟨?_, ?_, ?_⟩
        · simp [getFile, githubFetch, h401, h403, hrl]
        · intro hok; rw [h403] at hok; simp [isOk] at hok
        · intro _ _
          exact ⟨⟨getMessage "api_rateLimitExceeded", 403⟩,
            by simp [getFile, githubFetch, h401, h403, hrl]⟩
      · refine ⟨?_, ?_, ?_⟩
        · simp [getFile, githubFetch, h401, h403, hrl]
        · intro hok; rw [h403] at hok; simp [isOk] at hok
        · intro _ _
          exact ⟨⟨getMessage "api_accessDenied", 403⟩,
            by simp [getFile, githubFetch, h401, h403, hrl]⟩
    · by_cases h409 : r.status = 409
      · refine ⟨?_, ?_, ?_⟩
        · simp [getFile, githubFetch, h401, h403, h409]
        · intro hok; rw [h409] at hok; simp [isOk] at hok
        · intro _ _
          exact ⟨⟨getMessage "api_conflict", 409⟩,
            by simp [getFile, githubFetch, h401, h403, h409]⟩
      · by_cases h404 : r.status = 404
        · refine ⟨?_, ?_, ?_⟩
          · simp [getFile, githubFetch, h401, h403, h409, h404]
          · intro hok; rw [h404] at hok; simp [isOk] at hok
          · intro hne _; exact absurd h404 hne
        · by_cases hok : isOk r.status = true
          · refine ⟨?_, ?_, ?_⟩
            · simp [getFile, githubFetch, h401, h403, h409, h404, hok]
            · intro _; simp [getFile, githubFetch, h401, h403, h409, h404, hok]
            · intro _ hnok; rw [hok] at hnok; exact absurd hnok (by simp)
          · refine ⟨?_, ?_, ?_⟩
            · simp [getFile, githubFetch, h401, h403, h409, h404, hok]
            · intro h; exact absurd h hok
            · intro _ _
              exact ⟨⟨getMessage "api_errorReading", r.status⟩,
                by simp [getFile, githubFetch, h401, h403, h409, h404, hok]⟩

theorem claim_C6_witness :
    getFile ⟨404, none, "", ""⟩ = .ok none ∧
      getFile ⟨200, none, "", "abc"⟩ =
        .ok (some ⟨decodeBase64 "", "abc"⟩) :=
  ⟨(claim_C6 ⟨404, none, "", ""⟩).1.mpr rfl,
   (claim_C6 ⟨200, none, "", "abc"⟩).2.1 (by decide)⟩

/-- Helper: the focus-trigger decision as one boolean formula. -/
theorem focusSyncFires_eq (windowId : Int) (s : Settings) (lastSyncTime : Option Int)
    (now : Int) (inProgress : Bool) :
    focusSyncFires windowId s lastSyncTime now inProgress =
      (decide (0 ≤ windowId) && s.syncOnFocus && isConfigured s && s.autoSync &&
       (match lastSyncTime with
        | some t => decide (focusCooldownMs ≤ now - t)
        | none => true) &&
       !inProgress) := by
  unfold focusSyncFires
  cases lastSyncTime with
  | none =>
    split_ifs with h1 h2 h3 <;> simp_all [windowIdNone] <;> try omega
    rcases h2 with (h | h) | h <;> simp_all
  | some t =>
    split_ifs with h1 h2 h3 h4 <;> simp_all [windowIdNone] <;> try omega
    rcases h2 with (h | h) | h <;> simp_all

/-- Claim C7: the focus trigger fires sync() exactly when the focus event names
a real window, sync-on-focus is enabled, the profile is configured, auto-sync
is enabled, no sync is in flight, and the 60-second cooldown since the last
recorded sync time has elapsed (vacuously, when no sync time is recorded);
within the cooldown window it never fires. -/
theorem claim_C7 (windowId : Int) (s : Settings) (lastSyncTime : Option Int)
    (now : Int) (inProgress : Bool) :
    (focusSyncFires windowId s lastSyncTime now inProgress = true ↔
      (0 ≤ windowId ∧ s.syncOnFocus = true ∧ isConfigured s = true ∧ s.autoSync = true ∧
        (∀ t, lastSyncTime = some t → focusCooldownMs ≤ now - t) ∧ inProgress = false)) ∧
    (∀ t, lastSyncTime = some t → now - t < focusCooldownMs →
      focusSyncFires windowId s lastSyncTime now inProgress = false) := by
  constructor
  · rw [focusSyncFires_eq]
    cases lastSyncTime with
    | none =>
      simp
      tauto
    | some t =>
      simp
      tauto
  · intro t ht hlt
    subst ht
    rw [focusSyncFires_eq]
    have hno : ¬ (focusCooldownMs ≤ now - t) := by omega
    simp [hno]

theorem claim_C7_witness :
    focusSyncFires 5 ⟨"t", "o", "r", true, true, none⟩ (some 100) 200 false = false :=
  (claim_C7 5 ⟨"t", "o", "r", true, true, none⟩ (some 100) 200 false).2 100 rfl (by decide)

/-- Claim C10: deserializeFromJson fails exactly when the data is absent, its
bookmarks field is absent, or its version differs from 1, and otherwise
returns the bookmarks unchanged; in particular deserializing the output of
serializeToJson succeeds and returns the serialized children of the tree
root. -/
theorem claim_C10 :
    (∀ d : Option SData,
      ((∃ e, deserializeFromJson d = .error e) ↔
        (d = none ∨ ∃ x, d = some x ∧ (x.bookmarks = none ∨ x.version ≠ 1))) ∧
      (∀ x bs, d = some x → x.bookmarks = some bs → x.version = 1 →
        deserializeFromJson d = .ok bs)) ∧
    (∀ (now deviceId : String) (tree : List BNode),
      deserializeFromJson (some (serializeToJson now tree deviceId)) =
        .ok ((rootChildren tree).map serializeNode)) := by
  constructor
  · intro d
    constructor
    · cases d with
      | none => simp [deserializeFromJson]
      | some x =>
        cases hb : x.bookmarks with
        | none => simp [deserializeFromJson, hb]
        | some bs =>
          by_cases hv : x.version = 1
          · simp [deserializeFromJson, hb, hv]
          · simp [deserializeFromJson, hb, hv]
    · intro x bs hd hb hv
      subst hd
      simp [deserializeFromJson, hb, hv]
  · intro now deviceId tree
    simp [deserializeFromJson, serializeToJson]

theorem claim_C10_witness :
    deserializeFromJson (some (serializeToJson "2024-01-01" [] "device-1")) = .ok [] :=
  claim_C10.2 "2024-01-01" "device-1" []

/-- Helper: every character code is below the unicode bound. -/
theorem char_toNat_lt (c : Char) : c.toNat < 1114112 := by
  have heq : c.toNat = c.val.toNat := rfl
  rcases c.valid with h | ⟨_, h⟩ <;> omega

/-- Helper: UTF-8 encoding produces byte values. -/
theorem utf8Char_lt_256 (c : Char) : ∀ x ∈ utf8Char c, x < 256 := by
  have hlt := char_toNat_lt c
  intro x hx
  simp only [utf8Char] at hx
  split_ifs at hx with h1 h2 h3
  · simp at hx; omega
  · simp at hx; rcases hx with rfl | rfl <;> omega
  · simp at hx; rcases hx with rfl | rfl | rfl <;> omega
  · simp at hx; rcases hx with rfl | rfl | rfl | rfl <;> omega

/-- Helper: the encoded byte list consists of byte values. -/
theorem utf8Bytes_lt_256 (l : List Char) : ∀ x ∈ utf8Bytes l, x < 256 := by
  induction l with
  | nil => intro x hx; simp [utf8Bytes] at hx
  | cons c cs ih =>
    intro x hx
    rw [utf8Bytes] at hx
    rcases List.mem_append.mp hx with h | h
    · exact utf8Char_lt_256 c x h
    · exact ih x h

/-- Helper: the base64 alphabet roundtrips on 6-bit values. -/
theorem b64Val_b64Char : ∀ i < 64, b64Val (b64Char i) = i := by decide

/-- Helper: alphabet characters differ from the padding character. -/
theorem b64Char_ne_pad : ∀ i < 64, b64Char i ≠ '=' := by decide

/-- Helper: alphabet characters are not newlines. -/
theorem b64Char_ne_nl : ∀ i < 64, b64Char i ≠ '\n' := by decide

/-- Helper: btoa output contains no newline. -/
theorem btoaB_no_newline (l : List Nat) (hl : ∀ x ∈ l, x < 256) :
    ∀ ch ∈ btoaB l, ch ≠ '\n' := by
  induction l using btoaB.induct with
  | case1 => intro ch hch; simp [btoaB] at hch
  | case2 a =>
    have ha : a < 256 := hl a (by simp)
    intro ch hch
    rw [btoaB] at hch
    simp at hch
    rcases hch with rfl | rfl | rfl
    · exact b64Char_ne_nl _ (by omega)
    · exact b64Char_ne_nl _ (by omega)
    · decide
  | case3 a b =>
    have ha : a < 256 := hl a (by simp)
    have hb : b < 256 := hl b (by simp)
    intro ch hch
    rw [btoaB] at hch
    simp at hch
    rcases hch with rfl | rfl | rfl | rfl
    · exact b64Char_ne_nl _ (by omega)
    · exact b64Char_ne_nl _ (by omega)
    · exact b64Char_ne_nl _ (by omega)
    · decide
  | case4 a b c rest ih =>
    have ha : a < 256 := hl a (by simp)
    have hb : b < 256 := hl b (by simp)
    have hc : c < 256 := hl c (by simp)
    have hrest : ∀ x ∈ rest, x < 256 := fun x hx => hl x (by simp [hx])
    intro ch hch
    rw [btoaB] at hch
    simp at hch
    rcases hch with rfl | rfl | rfl | rfl | hmem
    · exact b64Char_ne_nl _ (by omega)
    · exact b64Char_ne_nl _ (by omega)
    · exact b64Char_ne_nl _ (by omega)
    · exact b64Char_ne_nl _ (by omega)
    · exact ih hrest ch hmem

/-- Helper: stripping newlines from newline-free text changes nothing. -/
theorem stripNewlines_id (l : List Char) (h : ∀ ch ∈ l, ch ≠ '\n') :
    stripNewlines l = l := by
  unfold stripNewlines
  rw [List.filter_eq_self]
  intro a ha
  simpa using h a ha

/-- Helper: atob inverts btoa on byte values. -/
theorem atobB_btoaB (l : List Nat) (h : ∀ x ∈ l, x < 256) : atobB (btoaB l) = l := by
  induction l using btoaB.induct with
  | case1 => rfl
  | case2 a =>
    have ha : a < 256 := h a (by simp)
    rw [btoaB, atobB]
    rw [if_pos rfl]
    have h1 : b64Val (b64Char (a / 4)) = a / 4 := b64Val_b64Char _ (by omega)
    have h2 : b64Val (b64Char (a % 4 * 16)) = a % 4 * 16 := b64Val_b64Char _ (by omega)
    rw [h1, h2]
    congr 1
    omega
  | case3 a b =>
    have ha : a < 256 := h a (by simp)
    have hb : b < 256 := h b (by simp)
    rw [btoaB, atobB]
    have hne : b64Char (b % 16 * 4) ≠ '=' := b64Char_ne_pad _ (by omega)
    rw [if_neg hne, if_pos rfl]
    have h1 : b64Val (b64Char (a / 4)) = a / 4 := b64Val_b64Char _ (by omega)
    have h2 : b64Val (b64Char (a % 4 * 16 + b / 16)) = a % 4 * 16 + b / 16 :=
      b64Val_b64Char _ (by omega)
    have h3 : b64Val (b64Char (b % 16 * 4)) = b % 16 * 4 := b64Val_b64Char _ (by omega)
    rw [h1, h2, h3]
    have e1 : (a / 4) * 4 + (a % 4 * 16 + b / 16) / 16 = a := by omega
    have e2 : (a % 4 * 16 + b / 16) % 16 * 16 + (b % 16 * 4) / 4 = b := by omega
    rw [e1, e2]
  | case4 a b c rest ih =>
    have ha : a < 256 := h a (by simp)
    have hb : b < 256 := h b (by simp)
    have hc : c < 256 := h c (by simp)
    have hrest : ∀ x ∈ rest, x < 256 := fun x hx => h x (by simp [hx])
    rw [btoaB, atobB]
    have hne3 : b64Char (b % 16 * 4 + c / 64) ≠ '=' := b64Char_ne_pad _ (by omega)
    have hne4 : b64Char (c % 64) ≠ '=' := b64Char_ne_pad _ (by omega)
    rw [if_neg hne3, if_neg hne4]
    have h1 : b64Val (b64Char (a / 4)) = a / 4 := b64Val_b64Char _ (by omega)
    have h2 : b64Val (b64Char (a % 4 * 16 + b / 16)) = a % 4 * 16 + b / 16 :=
      b64Val_b64Char _ (by omega)
    have h3 : b64Val (b64Char (b % 16 * 4 + c / 64)) = b % 16 * 4 + c / 64 :=
      b64Val_b64Char _ (by omega)
    have h4 : b64Val (b64Char (c % 64)) = c % 64 := b64Val_b64Char _ (by omega)
    rw [h1, h2, h3, h4, ih hrest]
    have e1 : (a / 4) * 4 + (a % 4 * 16 + b / 16) / 16 = a := by omega
    have e2 : (a % 4 * 16 + b / 16) % 16 * 16 + (b % 16 * 4 + c / 64) / 4 = b := by omega
    have e3 : (b % 16 * 4 + c / 64) % 4 * 64 + c % 64 = c := by omega
    rw [e1, e2, e3]

/-- Helper: the decoder consumes one encoded character exactly. -/
theorem utf8Decode_utf8Char (c : Char) (rest : List Nat) :
    utf8Decode (utf8Char c ++ rest) = c :: utf8Decode rest := by
  have hlt := char_toNat_lt c
  unfold utf8Char
  by_cases h1 : c.toNat < 128
  · rw [if_pos h1, List.cons_append, List.nil_append, utf8Decode]
    have hs : utf8Step c.toNat rest = (Char.ofNat c.toNat, 0) := by
      simp [utf8Step, h1]
    rw [hs]
    simp [Char.ofNat_toNat]
  · by_cases h2 : c.toNat < 2048
    · rw [if_neg h1, if_pos h2]
      simp only [List.cons_append, List.nil_append]
      rw [utf8Decode]
      have hs : utf8Step (192 + c.toNat / 64) ((128 + c.toNat % 64) :: rest) =
          (Char.ofNat (c.toNat / 64 * 64 + c.toNat % 64), 1) := by
        have ha : ¬ (192 + c.toNat / 64 < 128) := by omega
        have hb : ¬ (192 + c.toNat / 64 < 192) := by omega
        have hcc : 192 + c.toNat / 64 < 224 := by omega
        have hct : isCont (128 + c.toNat % 64) = true := by simp [isCont]; omega
        simp [utf8Step, ha, hb, hcc, hct]
      rw [hs]
      have hn : c.toNat / 64 * 64 + c.toNat % 64 = c.toNat := by omega
      simp [hn, Char.ofNat_toNat]
    · by_cases h3 : c.toNat < 65536
      · rw [if_neg h1, if_neg h2, if_pos h3]
        simp only [List.cons_append, List.nil_append]
        rw [utf8Decode]
        have hs : utf8Step (224 + c.toNat / 4096)
            ((128 + c.toNat / 64 % 64) :: (128 + c.toNat % 64) :: rest) =
            (Char.ofNat (c.toNat / 4096 * 4096 + c.toNat / 64 % 64 * 64 + c.toNat % 64), 2) := by
          have ha : ¬ (224 + c.toNat / 4096 < 128) := by omega
          have hb : ¬ (224 + c.toNat / 4096 < 192) := by omega
          have hcc : ¬ (224 + c.toNat / 4096 < 224) := by omega
          have hd : 224 + c.toNat / 4096 < 240 := by omega
          have hct : isCont (128 + c.toNat / 64 % 64) = true := by simp [isCont]; omega
          have hct2 : isCont (128 + c.toNat % 64) = true := by simp [isCont]; omega
          simp [utf8Step, ha, hb, hcc, hd, hct, hct2]
        rw [hs]
        have hn : c.toNat / 4096 * 4096 + c.toNat / 64 % 64 * 64 + c.toNat % 64 = c.toNat := by
          omega
        simp [hn, Char.ofNat_toNat]
      · rw [if_neg h1, if_neg h2, if_neg h3]
        simp only [List.cons_append, List.nil_append]
        rw [utf8Decode]
        have hs : utf8Step (240 + c.toNat / 262144)
            ((128 + c.toNat / 4096 % 64) :: (128 + c.toNat / 64 % 64) ::
              (128 + c.toNat % 64) :: rest) =
            (Char.ofNat (c.toNat / 262144 * 262144 + c.toNat / 4096 % 64 * 4096 +
              c.toNat / 64 % 64 * 64 + c.toNat % 64), 3) := by
          have ha : ¬ (240 + c.toNat / 262144 < 128) := by omega
          have hb : ¬ (240 + c.toNat / 262144 < 192) := by omega
          have hcc : ¬ (240 + c.toNat / 262144 < 224) := by omega
          have hd : ¬ (240 + c.toNat / 262144 < 240) := by omega
          have he : 240 + c.toNat / 262144 < 248 := by omega
          have hct : isCont (128 + c.toNat / 4096 % 64) = true := by simp [isCont]; omega
          have hct2 : isCont (128 + c.toNat / 64 % 64) = true := by simp [isCont]; omega
          have hct3 : isCont (128 + c.toNat % 64) = true := by simp [isCont]; omega
          simp [utf8Step, ha, hb, hcc, hd, he, hct, hct2, hct3]
        rw [hs]
        have hn : c.toNat / 262144 * 262144 + c.toNat / 4096 % 64 * 4096 +
            c.toNat / 64 % 64 * 64 + c.toNat % 64 = c.toNat := by omega
        simp [hn, Char.ofNat_toNat]

/-- Helper: UTF-8 decoding inverts UTF-8 encoding. -/
theorem utf8Decode_utf8Bytes (l : List Char) : utf8Decode (utf8Bytes l) = l := by
  induction l with
  | nil => rw [utf8Bytes, utf8Decode]
  | cons c cs ih => rw [utf8Bytes, utf8Decode_utf8Char, ih]

/-- Helper: character data of an append with a newline in the middle. -/
theorem data_append_nl (t u : String) :
    (t ++ "\n" ++ u).data = t.data ++ '\n' :: u.data := by
  simp

/-- Claim C9: decodeBase64 inverts encodeBase64 on every string, non-ASCII
unicode included, and decoding tolerates an embedded newline in the base64
input without changing the result. -/
theorem claim_C9 :
    (∀ s : String, decodeBase64 (encodeBase64 s) = s) ∧
    (∀ t u : String, decodeBase64 (t ++ "\n" ++ u) = decodeBase64 (t ++ u)) := by
  constructor
  · intro s
    show String.mk (utf8Decode (atobB (stripNewlines (btoaB (utf8Bytes s.data))))) = s
    rw [stripNewlines_id _ (btoaB_no_newline _ (utf8Bytes_lt_256 s.data))]
    rw [atobB_btoaB _ (utf8Bytes_lt_256 s.data)]
    rw [utf8Decode_utf8Bytes]
  · intro t u
    unfold decodeBase64 stripNewlines
    rw [data_append_nl]
    have : (t ++ u).data = t.data ++ u.data := by simp
    rw [this]
    rw [List.filter_append, List.filter_append]
    congr 2

/-- Helper: hexVal inverts hexDigit on nibble values. -/
theorem hexVal_hexDigit : ∀ n < 16, hexVal (hexDigit n) = n := by decide

/-- Helper: an escaped character rendering is non-empty, and unescStep recovers
the character and the escape length from its head and tail. -/
theorem unesc_spec (c : Char) (r : List Char) :
    ∃ hd tl, escChar c ++ r = hd :: tl ∧
      unescStep hd tl = (c, (escChar c).length - 1) ∧
      tl.drop ((escChar c).length - 1) = r := by
  unfold escChar
  split
  · rename_i h; subst h
    exact ⟨'\\', '"' :: r, rfl, by simp [unescStep], rfl⟩
  split
  · rename_i h; subst h
    exact ⟨'\\', '\\' :: r, rfl, by simp [unescStep], rfl⟩
  split
  · rename_i h; subst h
    exact ⟨'\\', 'n' :: r, rfl, by simp [unescStep], rfl⟩
  split
  · rename_i h; subst h
    exact ⟨'\\', 'r' :: r, rfl, by simp [unescStep], rfl⟩
  split
  · rename_i h; subst h
    exact ⟨'\\', 't' :: r, rfl, by simp [unescStep], rfl⟩
  split
  · rename_i h; subst h
    exact ⟨'\\', 'b' :: r, rfl, by simp [unescStep], rfl⟩
  split
  · rename_i h; subst h
    exact ⟨'\\', 'f' :: r, rfl, by simp [unescStep], rfl⟩
  split
  · rename_i hlt
    refine ⟨'\\', 'u' :: '0' :: '0' :: hexDigit (c.toNat / 16) :: hexDigit (c.toNat % 16) :: r,
      rfl, ?_, rfl⟩
    have e1 : hexVal (hexDigit (c.toNat / 16)) = c.toNat / 16 :=
      hexVal_hexDigit _ (by omega)
    have e2 : hexVal (hexDigit (c.toNat % 16)) = c.toNat % 16 :=
      hexVal_hexDigit _ (by omega)
    simp [unescStep, e1, e2]
    have hn : c.toNat / 16 * 16 + c.toNat % 16 = c.toNat := by omega
    rw [hn, Char.ofNat_toNat]
  · rename_i h1 h2 h3 h4 h5 h6 h7 h8
    exact ⟨c, r, rfl, by simp [unescStep, h2], rfl⟩

/-- Helper: escape renderings form a prefix code. -/
theorem escChar_inj {c1 c2 : Char} {x y : List Char}
    (h : escChar c1 ++ x = escChar c2 ++ y) : c1 = c2 ∧ x = y := by
  obtain ⟨hd1, tl1, he1, hu1, hr1⟩ := unesc_spec c1 x
  obtain ⟨hd2, tl2, he2, hu2, hr2⟩ := unesc_spec c2 y
  rw [he1, he2] at h
  simp only [List.cons.injEq] at h
  obtain ⟨hhd, htl⟩ := h
  subst hhd
  subst htl
  rw [hu1] at hu2
  simp only [Prod.mk.injEq] at hu2
  obtain ⟨hc, hk⟩ := hu2
  subst hc
  constructor
  · rfl
  · rw [← hr1, ← hr2, hk]

/-- Helper: an escape rendering is never empty. -/
theorem escChar_ne_nil (c : Char) : escChar c ≠ [] := by
  obtain ⟨hd, tl, he, _, _⟩ := unesc_spec c []
  simp only [List.append_nil] at he
  simp [he]

/-- Helper: an escape rendering never starts with a quote. -/
theorem escChar_head_ne_quote {x : Char} {xs : List Char} (c : Char)
    (h : escChar c = x :: xs) : x ≠ '"' := by
  unfold escChar at h
  repeat' split at h
  all_goals (injection h with h1 h2; subst h1; first | decide | simp_all)

/-- Helper: an escaped body followed by its closing quote determines the
original characters and the remainder. -/
theorem escBody_inj {r1 r2 : List Char} :
    ∀ {l1 l2 : List Char}, escBody l1 ++ '"' :: r1 = escBody l2 ++ '"' :: r2 →
      l1 = l2 ∧ r1 = r2 := by
  intro l1
  induction l1 with
  | nil =>
    intro l2 h
    cases l2 with
    | nil => simpa [escBody] using h
    | cons c cs =>
      exfalso
      rw [escBody, escBody, List.nil_append, List.append_assoc] at h
      obtain ⟨hd, tl, hcons⟩ : ∃ hd tl, escChar c = hd :: tl := by
        cases hch : escChar c with
        | nil => exact absurd hch (escChar_ne_nil c)
        | cons a b => exact ⟨a, b, rfl⟩
      rw [hcons] at h
      simp only [List.cons_append, List.cons.injEq] at h
      exact escChar_head_ne_quote c hcons h.1.symm
  | cons c1 cs1 ih =>
    intro l2 h
    cases l2 with
    | nil =>
      exfalso
      rw [escBody, escBody, List.nil_append, List.append_assoc] at h
      obtain ⟨hd, tl, hcons⟩ : ∃ hd tl, escChar c1 = hd :: tl := by
        cases hch : escChar c1 with
        | nil => exact absurd hch (escChar_ne_nil c1)
        | cons a b => exact ⟨a, b, rfl⟩
      rw [hcons] at h
      simp only [List.cons_append, List.cons.injEq] at h
      exact escChar_head_ne_quote c1 hcons h.1
    | cons c2 cs2 =>
      rw [escBody, escBody, List.append_assoc, List.append_assoc] at h
      obtain ⟨hc, htail⟩ := escChar_inj h
      subst hc
      obtain ⟨hcs, hr⟩ := ih htail
      exact ⟨by rw [hcs], hr⟩

/-- Helper: JSON string literals form a prefix code. -/
theorem qstr_inj {s1 s2 : String} {r1 r2 : List Char}
    (h : qstr s1 ++ r1 = qstr s2 ++ r2) : s1 = s2 ∧ r1 = r2 := by
  unfold qstr at h
  simp only [List.cons_append, List.cons.injEq, List.append_assoc,
    List.singleton_append, true_and] at h
  obtain ⟨hs, hr⟩ := escBody_inj h
  refine ⟨?_, hr⟩
  cases s1; cases s2; simp_all

/-- Helper: code of a character built from a small code point. -/
theorem char_toNat_ofNat_lt {n : Nat} (h : n < 55296) : (Char.ofNat n).toNat = n := by
  have hv : Nat.isValidChar n := Or.inl h
  simp only [Char.ofNat, hv, dif_pos]
  simp [Char.ofNatAux, Char.toNat, UInt32.toNat, BitVec.toNat_ofNat]

/-- Helper: code of a decimal digit character. -/
theorem digitCh_toNat {d : Nat} (h : d < 10) : (digitCh d).toNat = 48 + d :=
  char_toNat_ofNat_lt (by omega)

/-- Helper: the decimal rendering consists of digit characters. -/
theorem natChars_digits (n : Nat) : ∀ c ∈ natChars n, isDigitCh c = true := by
  induction n using natChars.induct with
  | case1 n h =>
    rw [natChars, if_pos h]
    intro c hc
    simp only [List.mem_singleton] at hc
    subst hc
    simp [isDigitCh, digitCh_toNat h]
    omega
  | case2 n h ih =>
    rw [natChars, if_neg h]
    intro c hc
    rcases List.mem_append.mp hc with h1 | h1
    · exact ih c h1
    · simp only [List.mem_singleton] at h1
      subst h1
      have hlt : n % 10 < 10 := by omega
      simp [isDigitCh, digitCh_toNat hlt]
      omega

/-- Helper: value of a digit string extended by one digit. -/
theorem digitsVal_append_singleton (l : List Char) (c : Char) :
    digitsVal (l ++ [c]) = digitsVal l * 10 + (c.toNat - 48) := by
  unfold digitsVal
  rw [List.foldl_append]
  rfl

/-- Helper: digitsVal inverts natChars. -/
theorem digitsVal_natChars (n : Nat) : digitsVal (natChars n) = n := by
  induction n using natChars.induct with
  | case1 n h =>
    rw [natChars, if_pos h]
    simp [digitsVal, digitCh_toNat h]
  | case2 n h ih =>
    rw [natChars, if_neg h, digitsVal_append_singleton, ih]
    have h10 : n % 10 < 10 := by omega
    rw [digitCh_toNat h10]
    omega

/-- Helper: decimal renderings are injective. -/
theorem natChars_inj {n1 n2 : Nat} (h : natChars n1 = natChars n2) : n1 = n2 := by
  have hv := digitsVal_natChars n1
  rw [h, digitsVal_natChars] at hv
  omega

/-- Helper: a digit string followed by a non-digit delimiter determines both
the digits and the remainder. -/
theorem digits_delim :
    ∀ (l1 : List Char) (l2 : List Char) {x1 x2 : List Char},
      (∀ c ∈ l1, isDigitCh c = true) → (∀ c ∈ l2, isDigitCh c = true) →
      (∀ c, x1.head? = some c → isDigitCh c = false) →
      (∀ c, x2.head? = some c → isDigitCh c = false) →
      l1 ++ x1 = l2 ++ x2 → l1 = l2 ∧ x1 = x2 := by
  intro l1
  induction l1 with
  | nil =>
    intro l2 x1 x2 _ hl2 hx1 _ h
    cases l2 with
    | nil => simpa using h
    | cons a as =>
      exfalso
      simp only [List.nil_append, List.cons_append] at h
      have hd : x1.head? = some a := by rw [h]; rfl
      have hf := hx1 a hd
      have ht := hl2 a (by simp)
      simp_all
  | cons a1 as1 ih =>
    intro l2 x1 x2 hl1 hl2 hx1 hx2 h
    cases l2 with
    | nil =>
      exfalso
      simp only [List.nil_append, List.cons_append] at h
      have hd : x2.head? = some a1 := by rw [← h]; rfl
      have hf := hx2 a1 hd
      have ht := hl1 a1 (by simp)
      simp_all
    | cons a2 as2 =>
      simp only [List.cons_append, List.cons.injEq] at h
      obtain ⟨ha, htail⟩ := h
      subst ha
      obtain ⟨hA, hx⟩ := ih as2 (fun c hc => hl1 c (List.mem_cons_of_mem _ hc))
        (fun c hc => hl2 c (List.mem_cons_of_mem _ hc)) hx1 hx2 htail
      exact ⟨by rw [hA], hx⟩

/-- Helper: every rendered node starts with an opening brace. -/
theorem jsonOfNode_head (n : SNode) : ∃ tl, jsonOfNode n = '\x7b' :: tl := by
  cases n <;> exact ⟨_, rfl⟩

mutual
/-- Helper: rendered nodes form a prefix code — equality of renderings with
arbitrary continuations forces equality of the nodes. -/
theorem jsonOfNode_inj (n1 : SNode) : ∀ (n2 : SNode) (r1 r2 : List Char),
    jsonOfNode n1 ++ r1 = jsonOfNode n2 ++ r2 → n1 = n2 ∧ r1 = r2 := by
  intro n2 r1 r2 h
  cases n1 with
  | bookmark t1 da1 u1 =>
    cases n2 with
    | bookmark t2 da2 u2 =>
      simp only [jsonOfNode, List.append_assoc] at h
      have h1 := List.append_cancel_left h
      obtain ⟨ht, h2⟩ := qstr_inj h1
      subst ht
      have h3 := List.append_cancel_left h2
      have hd1 : ∀ c, ((litTypeBm ++ (qstr u1 ++ (litClose ++ r1))) : List Char).head? =
          some c → isDigitCh c = false := by
        intro c hc; simp [litTypeBm] at hc; subst hc; decide
      have hd2 : ∀ c, ((litTypeBm ++ (qstr u2 ++ (litClose ++ r2))) : List Char).head? =
          some c → isDigitCh c = false := by
        intro c hc; simp [litTypeBm] at hc; subst hc; decide
      obtain ⟨hda, h4⟩ := digits_delim (natChars da1) (natChars da2)
        (natChars_digits da1) (natChars_digits da2) hd1 hd2 h3
      have hdae := natChars_inj hda
      subst hdae
      have h5 := List.append_cancel_left h4
      obtain ⟨hu, h6⟩ := qstr_inj h5
      subst hu
      have h7 := List.append_cancel_left h6
      exact ⟨rfl, h7⟩
    | folder t2 da2 cs2 =>
      exfalso
      simp only [jsonOfNode, List.append_assoc] at h
      have h1 := List.append_cancel_left h
      obtain ⟨ht, h2⟩ := qstr_inj h1
      have h3 := List.append_cancel_left h2
      have hd1 : ∀ c, ((litTypeBm ++ (qstr u1 ++ (litClose ++ r1))) : List Char).head? =
          some c → isDigitCh c = false := by
        intro c hc; simp [litTypeBm] at hc; subst hc; decide
      have hd2 : ∀ c, ((litTypeFo ++ (jsonBody cs2 ++ (litCloseFo ++ r2))) : List Char).head? =
          some c → isDigitCh c = false := by
        intro c hc; simp [litTypeFo] at hc; subst hc; decide
      obtain ⟨hda, h4⟩ := digits_delim (natChars da1) (natChars da2)
        (natChars_digits da1) (natChars_digits da2) hd1 hd2 h3
      simp +decide [litTypeBm, litTypeFo] at h4
  | folder t1 da1 cs1 =>
    cases n2 with
    | bookmark t2 da2 u2 =>
      exfalso
      simp only [jsonOfNode, List.append_assoc] at h
      have h1 := List.append_cancel_left h
      obtain ⟨ht, h2⟩ := qstr_inj h1
      have h3 := List.append_cancel_left h2
      have hd1 : ∀ c, ((litTypeFo ++ (jsonBody cs1 ++ (litCloseFo ++ r1))) : List Char).head? =
          some c → isDigitCh c = false := by
        intro c hc; simp [litTypeFo] at hc; subst hc; decide
      have hd2 : ∀ c, ((litTypeBm ++ (qstr u2 ++ (litClose ++ r2))) : List Char).head? =
          some c → isDigitCh c = false := by
        intro c hc; simp [litTypeBm] at hc; subst hc; decide
      obtain ⟨hda, h4⟩ := digits_delim (natChars da1) (natChars da2)
        (natChars_digits da1) (natChars_digits da2) hd1 hd2 h3
      simp +decide [litTypeBm, litTypeFo] at h4
    | folder t2 da2 cs2 =>
      simp only [jsonOfNode, List.append_assoc] at h
      have h1 := List.append_cancel_left h
      obtain ⟨ht, h2⟩ := qstr_inj h1
      subst ht
      have h3 := List.append_cancel_left h2
      have hd1 : ∀ c, ((litTypeFo ++ (jsonBody cs1 ++ (litCloseFo ++ r1))) : List Char).head? =
          some c → isDigitCh c = false := by
        intro c hc; simp [litTypeFo] at hc; subst hc; decide
      have hd2 : ∀ c, ((litTypeFo ++ (jsonBody cs2 ++ (litCloseFo ++ r2))) : List Char).head? =
          some c → isDigitCh c = false := by
        intro c hc; simp [litTypeFo] at hc; subst hc; decide
      obtain ⟨hda, h4⟩ := digits_delim (natChars da1) (natChars da2)
        (natChars_digits da1) (natChars_digits da2) hd1 hd2 h3
      have hdae := natChars_inj hda
      subst hdae
      have h5 := List.append_cancel_left h4
      have h5' : jsonBody cs1 ++ ']' :: ('\x7d' :: r1) = jsonBody cs2 ++ ']' :: ('\x7d' :: r2) := h5
      obtain ⟨hcs, hr⟩ := jsonBody_inj cs1 cs2 ('\x7d' :: r1) ('\x7d' :: r2) h5'
      simp only [List.cons.injEq, true_and] at hr
      exact ⟨by rw [hcs], hr⟩
termination_by sizeOf n1
/-- Helper: a rendered array body followed by its closing bracket determines
the node list and the remainder. -/
theorem jsonBody_inj (l1 : List SNode) : ∀ (l2 : List SNode) (r1 r2 : List Char),
    jsonBody l1 ++ ']' :: r1 = jsonBody l2 ++ ']' :: r2 → l1 = l2 ∧ r1 = r2 := by
  intro l2 r1 r2 h
  cases l1 with
  | nil =>
    cases l2 with
    | nil => simpa [jsonBody] using h
    | cons y s =>
      exfalso
      rw [jsonBody, jsonBody, List.nil_append, List.append_assoc] at h
      obtain ⟨tl, htl⟩ := jsonOfNode_head y
      rw [htl] at h
      simp only [List.cons_append, List.cons.injEq] at h
      exact absurd h.1 (by decide)
  | cons x t =>
    cases l2 with
    | nil =>
      exfalso
      rw [jsonBody, jsonBody, List.nil_append, List.append_assoc] at h
      obtain ⟨tl, htl⟩ := jsonOfNode_head x
      rw [htl] at h
      simp only [List.cons_append, List.cons.injEq] at h
      exact absurd h.1 (by decide)
    | cons y s =>
      rw [jsonBody, jsonBody, List.append_assoc, List.append_assoc] at h
      obtain ⟨hxy, htail⟩ := jsonOfNode_inj x y _ _ h
      obtain ⟨hts, hr⟩ := jsonTail_inj t s r1 r2 htail
      exact ⟨by rw [hxy, hts], hr⟩
termination_by sizeOf l1
/-- Helper: a comma-separated array continuation followed by the closing
bracket determines the node list and the remainder. -/
theorem jsonTail_inj (l1 : List SNode) : ∀ (l2 : List SNode) (r1 r2 : List Char),
    jsonTail l1 ++ ']' :: r1 = jsonTail l2 ++ ']' :: r2 → l1 = l2 ∧ r1 = r2 := by
  intro l2 r1 r2 h
  cases l1 with
  | nil =>
    cases l2 with
    | nil => simpa [jsonTail] using h
    | cons y s =>
      exfalso
      rw [jsonTail, jsonTail, List.nil_append] at h
      simp only [List.cons_append, List.cons.injEq] at h
      exact absurd h.1 (by decide)
  | cons x t =>
    cases l2 with
    | nil =>
      exfalso
      rw [jsonTail, jsonTail, List.nil_append] at h
      simp only [List.cons_append, List.cons.injEq] at h
      exact absurd h.1 (by decide)
    | cons y s =>
      rw [jsonTail, jsonTail] at h
      simp only [List.cons_append, List.cons.injEq, List.append_assoc, true_and] at h
      obtain ⟨hxy, htail⟩ := jsonOfNode_inj x y _ _ h
      obtain ⟨hts, hr⟩ := jsonTail_inj t s r1 r2 htail
      exact ⟨by rw [hxy, hts], hr⟩
termination_by sizeOf l1
end

/-- Claim C1: bookmarksEqual returns true exactly when the two bookmarks
fields are structurally identical, regardless of any difference in the
volatile exportedAt and deviceId metadata fields. -/
theorem claim_C1 (a b : SData) :
    bookmarksEqual (some a) (some b) = true ↔ a.bookmarks = b.bookmarks := by
  show (stringifyBM a.bookmarks == stringifyBM b.bookmarks) = true ↔ _
  constructor
  · intro h
    rw [beq_iff_eq] at h
    cases ha : a.bookmarks with
    | none =>
      cases hb : b.bookmarks with
      | none => rfl
      | some lb => rw [ha, hb] at h; simp [stringifyBM] at h
    | some la =>
      cases hb : b.bookmarks with
      | none => rw [ha, hb] at h; simp [stringifyBM] at h
      | some lb =>
        rw [ha, hb] at h
        simp only [stringifyBM, Option.some.injEq, List.cons.injEq, true_and] at h
        have h' : jsonBody la ++ ']' :: [] = jsonBody lb ++ ']' :: [] := by
          simpa using h
        obtain ⟨hl, _⟩ := jsonBody_inj la lb [] [] h'
        rw [hl]
  · intro h
    rw [h]
    exact beq_self_eq_true _
